import Mathlib

/-!
Verification of the anpr-vms backend against its specification.

The definitions below are shallow embeddings of the TypeScript source:

* `server/services/ocrService.ts` — the `AnprWorker` class (frame processing,
  deduplication cache, cache cleanup);
* `server/services/ffmpegManager.ts` — recording start/stop and the retention
  sweeper `cleanupOldRecordings`;
* `server/storage.ts` — the `MemStorage` in-memory metadata store;
* `server/routes.ts` — the camera CRUD / recording HTTP handlers and the
  WebSocket broadcast;
* `server/services/healthMonitor.ts` — `HealthMonitor.checkCamera`;
* `server/utils/encryption.ts` — `encryptCredentials` / `decryptCredentials`.

Machine numbers in the source are JavaScript numbers used only on integral
values (milliseconds, status codes) or exact comparisons (confidence
thresholds); they are embedded as `Nat` / `Int` / `Rat`.  Strings that are only
compared for equality stay `String`; the credential ciphertext, which the
specification talks about byte by byte, is embedded as `List Char`.
-/

/-! ## ANPR worker (`server/services/ocrService.ts`, class `AnprWorker`) -/

/-- One candidate region returned by the plate detector, paired with the text
the external OCR extractor returned for that region (`runOCR` in the source;
`none` when the extractor found no text).  The two external inference
processes are out of scope, so their answers are inputs of the model. -/
structure Detection where
  confidence : ℚ
  plate : Option String
deriving Repr, DecidableEq

/-- A persisted ANPR event as created by `storage.createAnprEvent` inside
`AnprWorker.processFrame` (only the fields the claims mention). -/
structure AnprEventRec where
  plate : String
  confidence : ℚ
deriving Repr, DecidableEq

/-- The per-camera deduplication cache (`processingCache` entry).  The source
stores the string `` `${plateText}_${Math.floor(Date.now() / 5000)}` `` in a
`Set<string>`; since the bucket number is written in decimal (no underscore)
that string determines and is determined by the pair
(plate text, bucket number), which is what we store. -/
abbrev DedupCache := List (String × ℕ)

/-- The cache key computed in `processFrame`:
`` `${plateText}_${Math.floor(Date.now() / 5000)}` ``, as a (plate, bucket)
pair; `now` is `Date.now()` in milliseconds. -/
def cacheKey (plate : String) (now : ℕ) : String × ℕ :=
  (plate, now / 5000)

/-- The threshold actually used by `processFrame`:
`anpr.confidenceThreshold || 0.8`.  A missing or zero (JavaScript-falsy)
configured threshold falls back to 0.8. -/
def effectiveThreshold : Option ℚ → ℚ
  | none => 4 / 5
  | some t => if t = 0 then 4 / 5 else t

/-- JavaScript truthiness of the `plateText` variable (`string | null`):
truthy iff present and non-empty. -/
def plateTruthy : Option String → Bool
  | none => false
  | some p => p ≠ ""

/-- The detection loop of `AnprWorker.processFrame`: for each detection, if
`plateText && detection.confidence >= (anpr.confidenceThreshold || 0.8)` and
the dedup key is not in the cache, the key is added and an event is persisted
(then emitted).  Returns the persisted events in order together with the
final cache. -/
def processDetections (threshold : Option ℚ) (now : ℕ) :
    List Detection → DedupCache → List AnprEventRec × DedupCache
  | [], cache => ([], cache)
  | d :: rest, cache =>
    match d.plate with
    | none => processDetections threshold now rest cache
    | some p =>
      if p ≠ "" ∧ effectiveThreshold threshold ≤ d.confidence then
        if cacheKey p now ∈ cache then
          processDetections threshold now rest cache
        else
          let r := processDetections threshold now rest (cacheKey p now :: cache)
          (⟨p, d.confidence⟩ :: r.1, r.2)
      else
        processDetections threshold now rest cache

/-- A sequence of ANPR ticks for one camera: each tick is a wall-clock time
(`Date.now()`, ms) together with the detections obtained on that tick.  The
cache persists across ticks (it lives in `processingCache` for the lifetime
of the worker). -/
def runAnprTicks (threshold : Option ℚ) :
    List (ℕ × List Detection) → DedupCache → List AnprEventRec × DedupCache
  | [], cache => ([], cache)
  | (now, ds) :: rest, cache =>
    let r := processDetections threshold now ds cache
    let r2 := runAnprTicks threshold rest r.2
    (r.1 ++ r2.1, r2.2)

/-- `AnprWorker.cleanupCache` for one camera's cache: keep a key iff
`now - bucket * 5000 < 30000` (the source recovers the bucket from the last
underscore-separated component of the key string; in the pair representation
it is the second component).  Run every 60 s by a global interval. -/
def cleanupCache (now : ℕ) (cache : DedupCache) : DedupCache :=
  cache.filter fun k => now - k.2 * 5000 < 30000

/-! ## Data model (`shared/schema.ts`, `server/storage.ts` class `MemStorage`) -/

/-- A stored camera row (the fields the claims mention).  `retainDays` is the
`retainDays` field of the `recording` policy JSON column;
`enabledProtocols` abstracts the protocol-enablement JSON object by its
`hls` flag (the routes only test the object's presence). -/
structure Camera where
  id : String
  name : String
  rtspUrl : String
  username : Option String
  encryptedPassword : Option String
  status : String
  retainDays : Option ℕ
  enabledProtocols : Bool
deriving Repr, DecidableEq

/-- A stored recording row (times in epoch milliseconds; `endTime = none`
while the recording is in progress). -/
structure RecordingRow where
  id : ℕ
  cameraId : String
  startTime : ℤ
  endTime : Option ℤ
deriving Repr, DecidableEq

/-- A stored ANPR event row (the fields the cascade claims mention). -/
structure AnprEventRow where
  id : ℕ
  cameraId : String
  plate : String
deriving Repr, DecidableEq

/-- The in-memory state touched by the route handlers: the `MemStorage` maps
plus the `FFmpegManager` process maps and the `HealthMonitor` monitored set.
`activeRecorders` is `FFmpegManager.recordings` (camera id to the id of the
recording row the running record child writes); `liveStreams` is the key set
of `FFmpegManager.streams`; `monitored` is `HealthMonitor.monitoredCameras`. -/
structure SystemState where
  cameras : List Camera
  recordings : List RecordingRow
  anprEvents : List AnprEventRow
  activeRecorders : List (String × ℕ)
  liveStreams : List String
  monitored : List String
deriving Repr, DecidableEq

/-- `MemStorage.getCamera`. -/
def getCamera (s : SystemState) (id : String) : Option Camera :=
  s.cameras.find? fun c => c.id = id

/-- `MemStorage.getRecordings`: filter by optional camera id, optional `from`
(`startTime >= from`), optional `to` (`startTime <= to`), then sort by
`startTime` descending. -/
def getRecordings (recs : List RecordingRow)
    (cameraId : Option String) (fromT toT : Option ℤ) : List RecordingRow :=
  let l1 := match cameraId with
    | none => recs
    | some cid => recs.filter fun r => r.cameraId = cid
  let l2 := match fromT with
    | none => l1
    | some f => l1.filter fun r => f ≤ r.startTime
  let l3 := match toT with
    | none => l2
    | some t => l2.filter fun r => r.startTime ≤ t
  l3.mergeSort fun a b => b.startTime ≤ a.startTime

/-! ## Retention collector (`FFmpegManager.cleanupOldRecordings`) -/

/-- The retention period used by the sweeper:
`camera.recording?.retainDays || 7` (missing or zero is JavaScript-falsy and
falls back to 7 days). -/
def retainDaysEff (c : Camera) : ℕ :=
  match c.retainDays with
  | none => 7
  | some d => if d = 0 then 7 else d

/-- The cutoff computed per camera:
`cutoffDate.setDate(cutoffDate.getDate() - retainDays)`, i.e. `now` minus
`retainDays` whole days, in milliseconds. -/
def retentionCutoff (now : ℤ) (c : Camera) : ℤ :=
  now - retainDaysEff c * 86400000

/-- One camera's pass of `cleanupOldRecordings`: fetch
`getRecordings { cameraId: camera.id, to: cutoffDate }` and delete each
returned recording's file and row.  The surviving store is the input minus
the fetched rows (rows are keyed by unique id, so deleting by id removes
exactly the fetched rows). -/
def sweepCamera (now : ℤ) (c : Camera) (recs : List RecordingRow) : List RecordingRow :=
  recs.filter fun r => r ∉ getRecordings recs (some c.id) none (some (retentionCutoff now c))

/-- `FFmpegManager.cleanupOldRecordings`: sweep every camera in the store in
order, threading the recording table.  Note the source never consults
`endTime`. -/
def cleanupOldRecordings (now : ℤ) : List Camera → List RecordingRow → List RecordingRow
  | [], recs => recs
  | c :: rest, recs => cleanupOldRecordings now rest (sweepCamera now c recs)

/-! ## Recording start (`FFmpegManager.startRecording`, route
`POST /api/cameras/:id/start-record`) -/

/-- `FFmpegManager.startRecording`: throws when the camera row is missing,
throws `already recording` when `this.recordings` has an entry for the
camera, otherwise creates a recording row with `endTime: null` and registers
the record child.  `now` is the wall clock and `newId` the id the store
mints for the new row. -/
def startRecordingSvc (s : SystemState) (id : String) (now : ℤ) (newId : ℕ) :
    Except String (RecordingRow × SystemState) :=
  match getCamera s id with
  | none => .error "camera not found"
  | some _ =>
    if (s.activeRecorders.find? fun e => e.1 = id).isSome then
      .error "already recording"
    else
      let row : RecordingRow := ⟨newId, id, now, none⟩
      .ok (row, { s with
        recordings := s.recordings ++ [row],
        activeRecorders := (id, newId) :: s.activeRecorders })

/-- Result of the `POST /api/cameras/:id/start-record` handler: HTTP status,
resulting state, and the (topic, recording) arguments of the `broadcast`
invocations the handler makes — an invocation log of the helper; what the
helper actually delivers to clients is modelled by `broadcastDeliver`. -/
structure StartRecResult where
  status : ℕ
  state : SystemState
  ws : List (String × RecordingRow)
deriving Repr, DecidableEq

/-- The `POST /api/cameras/:id/start-record` handler: 404 when the camera is
missing; otherwise call `startRecording` — any exception (including the
`already recording` conflict) is caught by the generic handler which answers
`500 Failed to start recording`; on success broadcast `recording-started`
and answer the row (200). -/
def startRecordRoute (s : SystemState) (id : String) (now : ℤ) (newId : ℕ) :
    StartRecResult :=
  match getCamera s id with
  | none => ⟨404, s, []⟩
  | some _ =>
    match startRecordingSvc s id now newId with
    | .error _ => ⟨500, s, []⟩
    | .ok (row, s1) => ⟨200, s1, [("recording-started", row)]⟩

/-! ## Camera CRUD routes (`server/routes.ts`) -/

/-- The body accepted by `updateCameraSchema` (every creatable field optional;
`status`, `lastSeen` and `encryptedPassword` are omitted by the schema and can
never appear in an update).  `enabledProtocols`, when present, carries the
`hls` flag of the submitted object. -/
structure UpdateCamera where
  name : Option String := none
  rtspUrl : Option String := none
  username : Option String := none
  password : Option String := none
  retainDays : Option (Option ℕ) := none
  enabledProtocols : Option Bool := none
deriving Repr, DecidableEq

/-- JavaScript truthiness of an optional string field. -/
def optTruthy : Option String → Bool
  | none => false
  | some v => v ≠ ""

/-- `MemStorage.updateCamera`'s object spread `{ ...camera, ...updates }`:
every field present in the update replaces the stored one.  The update can
never carry `encryptedPassword` (excluded by the schema), so that field is
always kept. -/
def applyCameraUpdates (c : Camera) (u : UpdateCamera) : Camera :=
  { c with
    name := u.name.getD c.name,
    rtspUrl := u.rtspUrl.getD c.rtspUrl,
    username := match u.username with | some v => some v | none => c.username,
    retainDays := u.retainDays.getD c.retainDays,
    enabledProtocols := u.enabledProtocols.getD c.enabledProtocols }

/-- The username masking applied by every camera HTTP response:
`camera.username ? '[HIDDEN]' : null`. -/
def maskUsername : Option String → Option String
  | none => none
  | some v => if v = "" then none else some "[HIDDEN]"

/-- The sanitisation applied to every camera HTTP response body:
`{ ...camera, encryptedPassword: undefined, username: masked }`. -/
def sanitizeCamera (c : Camera) : Camera :=
  { c with encryptedPassword := none, username := maskUsername c.username }

/-- Result of the `PUT /api/cameras/:id` handler: HTTP status, resulting
state, whether `ffmpegManager.restartStream` was invoked, the (topic,
payload) arguments of the `broadcast` invocations the handler makes (an
invocation log of the helper; delivery to clients is modelled by
`broadcastDeliver`), and the HTTP body. -/
structure PutCameraResult where
  status : ℕ
  state : SystemState
  restartedLive : Bool
  ws : List (String × Camera)
  body : Option Camera
deriving Repr, DecidableEq

/-- The `PUT /api/cameras/:id` handler.  When `updates.password` is truthy it
is encrypted into a local variable that is never used again, and the
`password` key is stripped from the applied update; `storage.updateCamera`
then spreads the remaining fields.  The live pipeline is restarted iff the
request contains a truthy `rtspUrl` or an `enabledProtocols` object — their
values are never compared with the stored ones.  `camera-updated` is always
broadcast with the raw updated record, while the HTTP body is sanitised. -/
def putCameraRoute (s : SystemState) (id : String) (u : UpdateCamera) :
    PutCameraResult :=
  let finalUpdates := if optTruthy u.password then { u with password := none } else u
  match getCamera s id with
  | none => ⟨404, s, false, [], none⟩
  | some c =>
    let c1 := applyCameraUpdates c finalUpdates
    let s1 := { s with cameras := s.cameras.map fun x => if x.id = id then c1 else x }
    let restart := optTruthy u.rtspUrl || u.enabledProtocols.isSome
    ⟨200, s1, restart, [("camera-updated", c1)], some (sanitizeCamera c1)⟩

/-- The body accepted by `insertCameraSchema` (id, timestamps, `status`,
`lastSeen` and `encryptedPassword` omitted; an optional plaintext
`password` added). -/
structure InsertCamera where
  name : String
  rtspUrl : String
  username : Option String := none
  password : Option String := none
  retainDays : Option ℕ := none
  enabledProtocols : Bool := true
deriving Repr, DecidableEq

/-- `MemStorage.createCamera`: mint an id and store the submitted fields with
`status: "offline"` — and `encryptedPassword: null`, overriding whatever the
route put in `cameraToCreate` (the source comment reads
`// Will be set by encryption service`). -/
def createCameraStore (req : InsertCamera) (newId : String) : Camera :=
  { id := newId
    name := req.name
    rtspUrl := req.rtspUrl
    username := req.username
    encryptedPassword := none
    status := "offline"
    retainDays := req.retainDays
    enabledProtocols := req.enabledProtocols }

/-- Result of the `POST /api/cameras` handler; `ws` is the invocation log
of the `broadcast` helper, as in `PutCameraResult`. -/
structure PostCameraResult where
  status : ℕ
  state : SystemState
  ws : List (String × Camera)
  body : Camera
deriving Repr, DecidableEq

/-- The `POST /api/cameras` handler: encrypt the password if provided, store
the camera, register it with the health monitor, start the HLS pipeline,
broadcast `camera-added` with the raw stored record, and answer 201 with the
sanitised record. -/
def postCameraRoute (s : SystemState) (req : InsertCamera) (newId : String) :
    PostCameraResult :=
  let cam := createCameraStore req newId
  let s1 := { s with
    cameras := s.cameras ++ [cam],
    monitored := s.monitored ++ [newId],
    liveStreams := if req.enabledProtocols then s.liveStreams ++ [newId] else s.liveStreams }
  ⟨201, s1, [("camera-added", cam)], sanitizeCamera cam⟩

/-- Result of the `DELETE /api/cameras/:id` handler; `ws` is the invocation
log of the `broadcast` helper (topic, id payload). -/
structure DeleteCameraResult where
  status : ℕ
  state : SystemState
  ws : List (String × String)
deriving Repr, DecidableEq

/-- The `DELETE /api/cameras/:id` handler: `storage.deleteCamera` removes the
camera row only (`MemStorage` has no cascade), then the health monitor drops
the camera and `ffmpegManager.stopStream` kills the live child.  The record
child (`activeRecorders`), the recording rows and the ANPR event rows are
never touched, and no recording is finalized. -/
def deleteCameraRoute (s : SystemState) (id : String) : DeleteCameraResult :=
  match getCamera s id with
  | none => ⟨404, s, []⟩
  | some _ =>
    ⟨204,
     { s with
        cameras := s.cameras.filter fun c => ¬ c.id = id,
        monitored := s.monitored.filter fun m => ¬ m = id,
        liveStreams := s.liveStreams.filter fun m => ¬ m = id },
     [("camera-deleted", id)]⟩

/-! ## WebSocket fan-out (`server/routes.ts`, `wsClients` and `broadcast`) -/

/-- The module-level `wsClients : Set<WebSocket>` that `broadcast` iterates
(routes.ts line 18).  It starts empty, and the `wss.on('connection')`
handler (routes.ts lines 26-32) only logs `wss.clients.size` and registers
a logging `close` handler — it never adds the socket to `wsClients`, and no
other statement in the source mutates the set.  So after any number of
client connections the set is unchanged.  Clients are abstracted by
numeric ids. -/
def wsClientsAfterConnections : ℕ → List ℕ
  | 0 => []
  | n + 1 => wsClientsAfterConnections n

/-- The `broadcast` helper (routes.ts lines 36-43): serialise
`{event, data}` and `send` it to every member of `wsClients`.  The result
is the list of frames actually delivered, one per member of the set the
helper iterates. -/
def broadcastDeliver (wsClients : List ℕ) (topic : String) (payload : Camera) :
    List (ℕ × String × Camera) :=
  wsClients.map fun w => (w, topic, payload)

/-! ## Health prober (`server/services/healthMonitor.ts`) -/

/-- The status derived from one probe: `status.connected ? 'online' : 'offline'`. -/
def deriveStatus (connected : Bool) : String :=
  if connected then "online" else "offline"

/-- `HealthMonitor.checkCamera` on one tick, given the camera's recorded
status and the probe outcome: a `camera-status` event is emitted iff the
derived status differs from the recorded one.  The recorded status is *not*
written back (the source comment reads
`// Status updates not available in current schema - using events instead`). -/
def checkCameraEvents (recorded : String) (connected : Bool) : List String :=
  if recorded ≠ deriveStatus connected then [deriveStatus connected] else []

/-- Consecutive prober ticks for one camera.  Because `checkCamera` never
updates the stored status, every tick compares against the same recorded
status. -/
def proberTicks (recorded : String) : List Bool → List String
  | [] => []
  | p :: rest => checkCameraEvents recorded p ++ proberTicks recorded rest

/-! ## Credential vault (`server/utils/encryption.ts`) -/

/-- Hex digit characters `0`-`9a-f` as produced by `Buffer.toString("hex")`. -/
def hexDigitChar (n : ℕ) : Char :=
  if n < 10 then Char.ofNat (48 + n) else Char.ofNat (87 + n)

/-- Hex encoding of one byte (two characters, high nibble first). -/
def byteToHex (b : ℕ) : List Char :=
  [hexDigitChar (b / 16), hexDigitChar (b % 16)]

/-- Hex encoding of a byte sequence (`Buffer.toString("hex")`). -/
def bytesToHex (bs : List ℕ) : List Char :=
  (bs.map byteToHex).flatten

/-- Value of a lowercase hex digit character, `none` for a non-digit. -/
def hexCharVal (c : Char) : Option ℕ :=
  if 48 ≤ c.toNat ∧ c.toNat ≤ 57 then some (c.toNat - 48)
  else if 97 ≤ c.toNat ∧ c.toNat ≤ 102 then some (c.toNat - 87)
  else none

/-- Hex decoding (`Buffer.from(·, "hex")`), failing on odd length or
non-digit characters. -/
def hexToBytes : List Char → Option (List ℕ)
  | [] => some []
  | [_] => none
  | c1 :: c2 :: rest => do
    let hi ← hexCharVal c1
    let lo ← hexCharVal c2
    let bs ← hexToBytes rest
    pure ((hi * 16 + lo) :: bs)

/-- Modelled from the spec: the external `node:crypto` AES-256-GCM primitive
reached through the deprecated `createCipher` / `createDecipher` API.  That
API derives both the key and the IV deterministically from the password
string (`ENC_KEY`), so for a fixed key the cipher is a deterministic
function of the plaintext; the random `iv` generated by
`encryptCredentials` never reaches it.  The primitive itself is outside the
repository, so it is modelled as a deterministic byte transformation with
an authentication tag determined by the plaintext: what the claims exercise
is only that encryption is deterministic, decryption inverts it, and the
tag must match.  The key byte stands in for the derived key. -/
def coreKeyByte : ℕ := 90

/-- Modelled from the spec: one byte of the keystream cipher (self-inverse). -/
def coreEncByte (b : ℕ) : ℕ := b ^^^ coreKeyByte

/-- Modelled from the spec: the ciphertext hex the cipher core produces
(`cipher.update(text, "utf8", "hex") + cipher.final("hex")`). -/
def coreEncHex (p : List Char) : List Char :=
  bytesToHex (p.map fun c => coreEncByte c.toNat)

/-- Modelled from the spec: the authentication tag hex
(`cipher.getAuthTag().toString("hex")`), determined by the plaintext under
the fixed derived key.  The spec's contract is that *any* tampering with
the authenticated fields must make `open` fail, i.e. the tag functions as
an ideal MAC: distinct messages never share a tag.  It is therefore
modelled as an injective function of the plaintext — its byte-for-byte hex
image — so that every tag collision the model admits is one the contract
itself admits (none). -/
def coreTagHex (p : List Char) : List Char :=
  bytesToHex (p.map Char.toNat)

/-- Modelled from the spec: the decipher core
(`decipher.update(encrypted, "hex", "utf8") + decipher.final("utf8")` after
`decipher.setAuthTag`): decode the hex, invert the keystream, and fail
unless the supplied tag is the one the cipher would have produced. -/
def coreDecHex (encHex tagHex : List Char) : Option (List Char) :=
  match hexToBytes encHex with
  | none => none
  | some bs =>
    let p := bs.map fun b => Char.ofNat (coreEncByte b)
    if coreTagHex p = tagHex then some p else none

/-- `encryptCredentials`: draw 16 random bytes (`iv`, a parameter here), run
the deprecated cipher, and return
`` `${iv.toString("hex")}:${authTag.toString("hex")}:${encrypted}` ``.
The random bytes are embedded in the output but never influence the
ciphertext or tag, because `createCipher` ignores them. -/
def encryptCredentials (ivBytes : List ℕ) (p : List Char) : List Char :=
  bytesToHex ivBytes ++ ':' :: (coreTagHex p ++ ':' :: coreEncHex p)

/-- `String.split(":")` on a character list. -/
def splitOnColon : List Char → List (List Char)
  | [] => [[]]
  | c :: rest =>
    match splitOnColon rest with
    | [] => [[]]
    | s :: ss => if c = ':' then [] :: s :: ss else (c :: s) :: ss

/-- `decryptCredentials`: split the ciphertext string on `:` into
`[ivHex, authTagHex, encrypted]` (destructuring takes the first three
fields; fewer than three makes the decipher throw, modelled as `none`).
The parsed `iv` is never passed to `createDecipher`, which derives its own;
only the tag and payload fields matter. -/
def decryptCredentials (x : List Char) : Option (List Char) :=
  match splitOnColon x with
  | _ivHex :: tagHex :: encHex :: _ => coreDecHex encHex tagHex
  | _ => none

/-! ## Theorems -/

/-! ### C1 — ANPR acceptance predicate -/

/-- C1.  For every camera tick, an ANPR event is persisted by
`processFrame` only when a (non-empty) plate string was extracted and the
detection confidence is at least the camera's configured confidence
threshold; consequently every persisted event carries a plate and a
confidence at least that threshold.  (The hypothesis `t ≠ 0` says the
configured threshold is not JavaScript-falsy; the spec constrains it to
[0.1, 1.0].) -/
theorem anpr_event_confidence_ge_threshold
    (t : ℚ) (ht : t ≠ 0) (now : ℕ) (ds : List Detection) (cache : DedupCache) :
    ∀ e ∈ (processDetections (some t) now ds cache).1,
      e.plate ≠ "" ∧ t ≤ e.confidence := by
  have heff : effectiveThreshold (some t) = t := by simp [effectiveThreshold, ht]
  induction ds generalizing cache with
  | nil => simp [processDetections]
  | cons d rest ih =>
    intro e he
    cases hp : d.plate with
    | none =>
      rw [show processDetections (some t) now (d :: rest) cache
            = processDetections (some t) now rest cache by
          simp [processDetections, hp]] at he
      exact ih cache e he
    | some p =>
      by_cases hacc : p ≠ "" ∧ effectiveThreshold (some t) ≤ d.confidence
      · by_cases hk : cacheKey p now ∈ cache
        · rw [show processDetections (some t) now (d :: rest) cache
                = processDetections (some t) now rest cache by
              simp [processDetections, hp, hacc, hk]] at he
          exact ih cache e he
        · rw [show (processDetections (some t) now (d :: rest) cache).1
                = ⟨p, d.confidence⟩ ::
                  (processDetections (some t) now rest (cacheKey p now :: cache)).1 by
              simp [processDetections, hp, hacc, hk]] at he
          rcases List.mem_cons.mp he with rfl | he'
          · exact ⟨hacc.1, heff ▸ hacc.2⟩
          · exact ih (cacheKey p now :: cache) e he'
      · rw [show processDetections (some t) now (d :: rest) cache
              = processDetections (some t) now rest cache by
            simp only [processDetections, hp]
            rw [if_neg hacc]] at he
        exact ih cache e he

/-- Witness for C1: a concrete accepted detection at threshold 0.8. -/
theorem anpr_event_confidence_ge_threshold_witness :
    ((8 : ℚ) / 10 ≠ 0)
    ∧ ∀ e ∈ (processDetections (some ((8 : ℚ) / 10)) 0
        [⟨9 / 10, some "ABC1234"⟩] []).1,
        e.plate ≠ "" ∧ (8 : ℚ) / 10 ≤ e.confidence :=
  ⟨by norm_num,
   anpr_event_confidence_ge_threshold ((8 : ℚ) / 10) (by norm_num) 0
     [⟨9 / 10, some "ABC1234"⟩] []⟩

/-! ### C2 — deduplication filter -/

/-- Counterexample for C2.  Two successful reads of the same plate from the
same camera, 2 ms apart (well within 5 s), straddle a `floor(now / 5000)`
bucket boundary and produce *two* persisted ANPR events, not one. -/
theorem dedup_within_5s_two_events_counterexample :
    (runAnprTicks (some (4 / 5))
        [(4999, [⟨9 / 10, some "ABC1234"⟩]), (5001, [⟨9 / 10, some "ABC1234"⟩])]
        []).1.length = 2
    ∧ 5001 - 4999 < 5000 := by
  have h : ("ABC1234" : String) ≠ "" := by decide
  constructor
  · norm_num [runAnprTicks, processDetections, effectiveThreshold, cacheKey, h]
  · norm_num

/-- One accepted detection whose key is already cached is suppressed and
leaves the cache unchanged. -/
theorem processDetections_single_suppressed
    (threshold : Option ℚ) (now : ℕ) (c : ℚ) (p : String) (cache : DedupCache)
    (hp : p ≠ "") (hc : effectiveThreshold threshold ≤ c)
    (hk : cacheKey p now ∈ cache) :
    processDetections threshold now [⟨c, some p⟩] cache = ([], cache) := by
  simp [processDetections, hp, hc, hk]

/-- One accepted detection whose key is not cached is persisted and caches
its key. -/
theorem processDetections_single_fresh
    (threshold : Option ℚ) (now : ℕ) (c : ℚ) (p : String) (cache : DedupCache)
    (hp : p ≠ "") (hc : effectiveThreshold threshold ≤ c)
    (hk : cacheKey p now ∉ cache) :
    processDetections threshold now [⟨c, some p⟩] cache
      = ([⟨p, c⟩], cacheKey p now :: cache) := by
  simp [processDetections, hp, hc, hk]

/-- Once the (plate, bucket) key is cached, any further ticks in the same
bucket produce no events and do not change the cache. -/
theorem runAnprTicks_suppressed
    (threshold : Option ℚ) (c : ℚ) (p : String) (b : ℕ) (times : List ℕ)
    (cache : DedupCache) (hp : p ≠ "") (hc : effectiveThreshold threshold ≤ c)
    (hb : ∀ n ∈ times, n / 5000 = b) (hk : (p, b) ∈ cache) :
    runAnprTicks threshold (times.map fun n => (n, [⟨c, some p⟩])) cache
      = ([], cache) := by
  induction times with
  | nil => simp [runAnprTicks]
  | cons n rest ih =>
    have hkey : cacheKey p n ∈ cache := by
      rw [cacheKey, hb n (List.mem_cons_self n rest)]
      exact hk
    simp only [List.map_cons, runAnprTicks,
      processDetections_single_suppressed threshold n c p cache hp hc hkey,
      ih fun m hm => hb m (List.mem_cons_of_mem n hm)]
    simp

/-- C2, amended.  The dedup filter keys accepted reads by the pair
(plate, `floor(now / 5000)`), suppresses any read whose key is already
cached, and the cleanup run every 60 s keeps exactly the keys with
`now − bucket·5000 < 30000`; consequently N ≥ 1 consecutive successful
reads of the same plate from the same camera *within the same 5-second
bucket* (rather than: within 5 s of each other) yield exactly one
persisted ANPR event. -/
theorem dedup_same_bucket_exactly_one_event :
    (∀ (now : ℕ) (cache : DedupCache) (k : String × ℕ),
        k ∈ cleanupCache now cache ↔ k ∈ cache ∧ now - k.2 * 5000 < 30000)
    ∧ ∀ (threshold : Option ℚ) (c : ℚ) (p : String) (b : ℕ) (times : List ℕ)
        (cache : DedupCache),
        p ≠ "" → effectiveThreshold threshold ≤ c → times ≠ [] →
        (∀ n ∈ times, n / 5000 = b) → (p, b) ∉ cache →
        (runAnprTicks threshold (times.map fun n => (n, [⟨c, some p⟩])) cache).1.length
          = 1 := by
  constructor
  · intro now cache k
    simp [cleanupCache, List.mem_filter]
  · intro threshold c p b times cache hp hc hne hb hk
    cases times with
    | nil => exact absurd rfl hne
    | cons n rest =>
      have hbn : n / 5000 = b := hb n (List.mem_cons_self n rest)
      have hkey : cacheKey p n ∉ cache := by
        rw [cacheKey, hbn]; exact hk
      have hfresh := processDetections_single_fresh threshold n c p cache hp hc hkey
      have hrest := runAnprTicks_suppressed threshold c p b rest
        (cacheKey p n :: cache) hp hc
        (fun m hm => hb m (List.mem_cons_of_mem n hm))
        (by rw [cacheKey, hbn]; exact List.mem_cons_self _ _)
      simp [runAnprTicks, hfresh, hrest]

/-- Witness for C2 (amended): cache cleanup keeps a fresh key, and three
same-bucket reads of one plate yield exactly one event. -/
theorem dedup_same_bucket_exactly_one_event_witness :
    (("ABC1234", 0) ∈ cleanupCache 1000 [("ABC1234", 0)]
      ↔ ("ABC1234", 0) ∈ [("ABC1234", (0 : ℕ))] ∧ 1000 - 0 * 5000 < 30000)
    ∧ (runAnprTicks (some (4 / 5))
        ([1000, 2000, 3000].map fun n => (n, [⟨9 / 10, some "ABC1234"⟩]))
        []).1.length = 1 :=
  ⟨dedup_same_bucket_exactly_one_event.1 1000 [("ABC1234", 0)] ("ABC1234", 0),
   dedup_same_bucket_exactly_one_event.2 (some (4 / 5)) (9 / 10) "ABC1234" 0
     [1000, 2000, 3000] [] (by decide) (by norm_num [effectiveThreshold])
     (by decide) (by decide) (by decide)⟩

/-! ### C3 — retention collector -/

/-- Membership in `MemStorage.getRecordings` with a camera-id and `to`
filter. -/
theorem mem_getRecordings (recs : List RecordingRow) (cid : String) (t : ℤ)
    (r : RecordingRow) :
    r ∈ getRecordings recs (some cid) none (some t)
      ↔ r ∈ recs ∧ r.cameraId = cid ∧ r.startTime ≤ t := by
  simp only [getRecordings, List.mem_mergeSort, List.mem_filter, decide_eq_true_eq]
  tauto

/-- Membership after one camera's retention pass. -/
theorem mem_sweepCamera (now : ℤ) (c : Camera) (recs : List RecordingRow)
    (r : RecordingRow) :
    r ∈ sweepCamera now c recs
      ↔ r ∈ recs ∧ ¬ (r.cameraId = c.id ∧ r.startTime ≤ retentionCutoff now c) := by
  simp only [sweepCamera, List.mem_filter, decide_not, Bool.not_eq_true',
    decide_eq_false_iff_not, mem_getRecordings]
  constructor
  · rintro ⟨hm, hn⟩
    exact ⟨hm, fun hab => hn ⟨hm, hab.1, hab.2⟩⟩
  · rintro ⟨hm, hn⟩
    exact ⟨hm, fun habc => hn ⟨habc.2.1, habc.2.2⟩⟩

/-- Membership after the whole retention sweep. -/
theorem mem_cleanupOldRecordings (now : ℤ) (cams : List Camera)
    (recs : List RecordingRow) (r : RecordingRow) :
    r ∈ cleanupOldRecordings now cams recs
      ↔ r ∈ recs ∧ ∀ c ∈ cams,
          ¬ (r.cameraId = c.id ∧ r.startTime ≤ retentionCutoff now c) := by
  induction cams generalizing recs with
  | nil => simp [cleanupOldRecordings]
  | cons c rest ih =>
    rw [show cleanupOldRecordings now (c :: rest) recs
          = cleanupOldRecordings now rest (sweepCamera now c recs) from rfl,
      ih, mem_sweepCamera]
    simp only [List.forall_mem_cons]
    tauto

/-- Counterexample for C3.  A recording with `end_time = null` whose
`start_time` is 8 days old is deleted by the collector under a 7-day
retention policy: the collector never consults `end_time`. -/
theorem retention_deletes_in_progress_counterexample :
    (⟨1, "c1", 0, none⟩ : RecordingRow).endTime = none
    ∧ (⟨1, "c1", 0, none⟩ : RecordingRow) ∉
        cleanupOldRecordings 691200000
          [⟨"c1", "Cam 1", "rtsp://h/s", none, none, "offline", some 7, true⟩]
          [⟨1, "c1", 0, none⟩] := by
  refine ⟨rfl, fun hmem => ?_⟩
  have h := (mem_cleanupOldRecordings 691200000 _ _ _ |>.mp hmem).2
    ⟨"c1", "Cam 1", "rtsp://h/s", none, none, "offline", some 7, true⟩
    (List.mem_singleton_self _)
  exact h ⟨rfl, by norm_num [retentionCutoff, retainDaysEff]⟩

/-- C3, amended.  The retention collector deletes, per camera in the store,
exactly the recordings whose `start_time` is at most
`now − retainDays · 86400000` — regardless of `end_time`: a recording with
`end_time = null` is deleted like any other once old enough, and the
boundary is `start_time ≤ cutoff`, not strict. -/
theorem retention_deletes_iff_older_than_cutoff (now : ℤ) (cams : List Camera)
    (recs : List RecordingRow) (r : RecordingRow) :
    r ∈ cleanupOldRecordings now cams recs
      ↔ r ∈ recs ∧ ∀ c ∈ cams,
          ¬ (r.cameraId = c.id ∧ r.startTime ≤ retentionCutoff now c) :=
  mem_cleanupOldRecordings now cams recs r

/-! ### C4 — delete camera -/

/-- C4 (code bug evaluation).  Deleting a camera that has an in-progress
recording answers 204 and removes the camera row, but: the record child is
still registered (never stopped), the recording row is still present with
`end_time = null` (never finalized), and the camera's recording and ANPR
event rows remain in the store (`MemStorage.deleteCamera` has no cascade).
The spec mandates finalize-recording → stop live child → delete row with
cascade; §9 of the spec flags that the source does not do this. -/
theorem deleteCamera_leaves_rows_and_recording_running :
    (deleteCameraRoute
        ⟨[⟨"c1", "Cam 1", "rtsp://h/s", none, none, "offline", some 7, true⟩],
         [⟨1, "c1", 0, none⟩], [⟨1, "c1", "ABC1234"⟩], [("c1", 1)], ["c1"], ["c1"]⟩
        "c1").status = 204
    ∧ (deleteCameraRoute
        ⟨[⟨"c1", "Cam 1", "rtsp://h/s", none, none, "offline", some 7, true⟩],
         [⟨1, "c1", 0, none⟩], [⟨1, "c1", "ABC1234"⟩], [("c1", 1)], ["c1"], ["c1"]⟩
        "c1").state.cameras = []
    ∧ (deleteCameraRoute
        ⟨[⟨"c1", "Cam 1", "rtsp://h/s", none, none, "offline", some 7, true⟩],
         [⟨1, "c1", 0, none⟩], [⟨1, "c1", "ABC1234"⟩], [("c1", 1)], ["c1"], ["c1"]⟩
        "c1").state.recordings = [⟨1, "c1", 0, none⟩]
    ∧ (deleteCameraRoute
        ⟨[⟨"c1", "Cam 1", "rtsp://h/s", none, none, "offline", some 7, true⟩],
         [⟨1, "c1", 0, none⟩], [⟨1, "c1", "ABC1234"⟩], [("c1", 1)], ["c1"], ["c1"]⟩
        "c1").state.anprEvents = [⟨1, "c1", "ABC1234"⟩]
    ∧ (deleteCameraRoute
        ⟨[⟨"c1", "Cam 1", "rtsp://h/s", none, none, "offline", some 7, true⟩],
         [⟨1, "c1", 0, none⟩], [⟨1, "c1", "ABC1234"⟩], [("c1", 1)], ["c1"], ["c1"]⟩
        "c1").state.activeRecorders = [("c1", 1)] := by
  decide

/-! ### C6 — begin recording while already recording -/

/-- Counterexample for C6.  With an active recording, the start-record route
answers 500 (the generic catch-all), not a 4xx conflict status. -/
theorem startRecord_conflict_answers_500_counterexample :
    (startRecordRoute
        ⟨[⟨"c1", "Cam 1", "rtsp://h/s", none, none, "offline", some 7, true⟩],
         [⟨1, "c1", 0, none⟩], [], [("c1", 1)], ["c1"], ["c1"]⟩
        "c1" 100 2).status = 500
    ∧ (startRecordRoute
        ⟨[⟨"c1", "Cam 1", "rtsp://h/s", none, none, "offline", some 7, true⟩],
         [⟨1, "c1", 0, none⟩], [], [("c1", 1)], ["c1"], ["c1"]⟩
        "c1" 100 2).status / 100 ≠ 4 := by
  decide

/-- C6, amended.  When the camera exists and already has an active record
child, `startRecording` fails with the `already recording` conflict, the
route surfaces it as a generic 500 (not 4xx), no second recording row (in
particular none with `end_time = null`) is created, the state is unchanged,
and nothing is broadcast. -/
theorem startRecord_alreadyRecording_500_no_row
    (s : SystemState) (id : String) (now : ℤ) (newId : ℕ) (c : Camera)
    (hc : getCamera s id = some c)
    (hactive : (s.activeRecorders.find? fun e => e.1 = id).isSome) :
    startRecordRoute s id now newId = ⟨500, s, []⟩ := by
  unfold startRecordRoute startRecordingSvc
  rw [hc]
  simp [hactive]

/-- Witness for C6 (amended): the concrete conflicting state. -/
theorem startRecord_alreadyRecording_500_no_row_witness :
    startRecordRoute
        ⟨[⟨"c1", "Cam 1", "rtsp://h/s", none, none, "offline", some 7, true⟩],
         [⟨1, "c1", 0, none⟩], [], [("c1", 1)], ["c1"], ["c1"]⟩
        "c1" 100 2
      = ⟨500,
         ⟨[⟨"c1", "Cam 1", "rtsp://h/s", none, none, "offline", some 7, true⟩],
          [⟨1, "c1", 0, none⟩], [], [("c1", 1)], ["c1"], ["c1"]⟩, []⟩ :=
  startRecord_alreadyRecording_500_no_row _ "c1" 100 2
    ⟨"c1", "Cam 1", "rtsp://h/s", none, none, "offline", some 7, true⟩
    (by decide) (by decide)

/-! ### C7 — health prober status events -/

/-- Counterexample for C7.  Two consecutive ticks that both derive `offline`
emit zero `camera-status` events when the recorded status is already
`offline` (the only value the store ever holds, since `checkCamera` never
writes the status back) — and would emit two events, one per tick, if the
recorded status were anything else.  Neither case is the claimed
"exactly one". -/
theorem prober_offline_twice_counterexample :
    (proberTicks "offline" [false, false]).length = 0
    ∧ (proberTicks "online" [false, false]).length = 2 := by
  decide

/-- C7, amended.  On each tick the prober emits a `camera-status` event iff
the derived status differs from the recorded status; but since the recorded
status is never updated by the prober, two consecutive ticks deriving
`offline` emit zero events when the recorded status is already `offline`
and two events (one per tick) otherwise — never exactly one. -/
theorem prober_emits_iff_status_differs :
    (∀ (recorded : String) (connected : Bool),
        checkCameraEvents recorded connected ≠ []
          ↔ deriveStatus connected ≠ recorded)
    ∧ ∀ recorded : String,
        (proberTicks recorded [false, false]).length
          = if recorded = "offline" then 0 else 2 := by
  constructor
  · intro recorded connected
    by_cases h : recorded = deriveStatus connected
    · simp [checkCameraEvents, h]
    · simp only [checkCameraEvents, if_pos h, ne_eq]
      constructor
      · exact fun _ hh => h hh.symm
      · intro _ hh
        simp at hh
  · intro recorded
    by_cases h : recorded = "offline" <;>
      simp [proberTicks, checkCameraEvents, deriveStatus, h]

/-! ### C8 — update with identical content -/

/-- Counterexample for C8.  An update whose content is identical to the
stored configuration (same `rtspUrl`) still restarts the live pipeline
(the route tests field *presence*, not change) and still broadcasts
`camera-updated`; the stored camera is unchanged. -/
theorem updateCamera_identical_not_noop_counterexample :
    (putCameraRoute
        ⟨[⟨"c1", "Cam 1", "rtsp://h/s", none, none, "offline", some 7, true⟩],
         [], [], [], [], []⟩
        "c1" { rtspUrl := some "rtsp://h/s" }).restartedLive = true
    ∧ (putCameraRoute
        ⟨[⟨"c1", "Cam 1", "rtsp://h/s", none, none, "offline", some 7, true⟩],
         [], [], [], [], []⟩
        "c1" { rtspUrl := some "rtsp://h/s" }).ws ≠ []
    ∧ (putCameraRoute
        ⟨[⟨"c1", "Cam 1", "rtsp://h/s", none, none, "offline", some 7, true⟩],
         [], [], [], [], []⟩
        "c1" { rtspUrl := some "rtsp://h/s" }).state.cameras
      = [⟨"c1", "Cam 1", "rtsp://h/s", none, none, "offline", some 7, true⟩] := by
  decide

/-- C8, amended.  Every update of an existing camera broadcasts exactly one
`camera-updated` frame, identical content or not; and the live pipeline is
restarted iff the request contains a truthy `rtspUrl` or an
`enabledProtocols` object — regardless of whether either value changed. -/
theorem updateCamera_broadcasts_and_restarts_on_presence
    (s : SystemState) (id : String) (u : UpdateCamera) (c : Camera)
    (hc : getCamera s id = some c) :
    (putCameraRoute s id u).ws.map Prod.fst = ["camera-updated"]
    ∧ (putCameraRoute s id u).restartedLive
        = (optTruthy u.rtspUrl || u.enabledProtocols.isSome) := by
  unfold putCameraRoute
  rw [hc]
  simp

/-- Witness for C8 (amended): the identical-content update above. -/
theorem updateCamera_broadcasts_and_restarts_on_presence_witness :
    (putCameraRoute
        ⟨[⟨"c1", "Cam 1", "rtsp://h/s", none, none, "offline", some 7, true⟩],
         [], [], [], [], []⟩
        "c1" { rtspUrl := some "rtsp://h/s" }).ws.map Prod.fst = ["camera-updated"]
    ∧ (putCameraRoute
        ⟨[⟨"c1", "Cam 1", "rtsp://h/s", none, none, "offline", some 7, true⟩],
         [], [], [], [], []⟩
        "c1" { rtspUrl := some "rtsp://h/s" }).restartedLive
      = (optTruthy (some "rtsp://h/s") || (none : Option Bool).isSome) :=
  updateCamera_broadcasts_and_restarts_on_presence _ "c1"
    { rtspUrl := some "rtsp://h/s" }
    ⟨"c1", "Cam 1", "rtsp://h/s", none, none, "offline", some 7, true⟩
    (by decide)

/-! ### C9 — WebSocket fan-out of unmasked camera records -/

/-- The `wsClients` set `broadcast` iterates stays empty after any number
of connections: the connection handler never adds the socket to it. -/
theorem wsClientsAfterConnections_eq_nil (n : ℕ) :
    wsClientsAfterConnections n = [] := by
  induction n with
  | zero => rfl
  | succ n ih => exact ih

/-- Counterexample for C9.  After three clients have connected, the
`camera-added` broadcast of a freshly stored (unmasked) camera record
delivers zero frames: `broadcast` iterates the module-level `wsClients`
set, which the connection handler never populates, so no connected
WebSocket client ever receives the record — masked or unmasked. -/
theorem ws_broadcast_delivers_nothing_counterexample :
    wsClientsAfterConnections 3 = []
    ∧ broadcastDeliver (wsClientsAfterConnections 3) "camera-added"
        ⟨"c1", "Cam 1", "rtsp://h/s", some "admin", some "aa:bb:cc",
         "offline", some 7, true⟩
      = [] := by
  decide

/-- C9, amended.  The create and update handlers do hand the `broadcast`
helper the raw stored camera record — unmasked `username` and the stored
`encryptedPassword` field — while their HTTP responses set
`encryptedPassword` to `undefined` and mask the username; but the helper
delivers those frames to the members of the module-level `wsClients` set,
which the connection handler never populates, so after any number of
client connections no frame is delivered to any connected client. -/
theorem ws_broadcast_arg_unmasked_but_never_delivered :
    (∀ (n : ℕ) (topic : String) (payload : Camera),
        broadcastDeliver (wsClientsAfterConnections n) topic payload = [])
    ∧ (∀ (s : SystemState) (req : InsertCamera) (nid : String) (un : String),
        req.username = some un → un ≠ "" →
        ∃ cam, (postCameraRoute s req nid).ws = [("camera-added", cam)]
          ∧ cam ∈ (postCameraRoute s req nid).state.cameras
          ∧ cam.username = some un
          ∧ (postCameraRoute s req nid).body.username = some "[HIDDEN]"
          ∧ (postCameraRoute s req nid).body.encryptedPassword = none)
    ∧ ∀ (s : SystemState) (id : String) (u : UpdateCamera) (c : Camera),
        getCamera s id = some c →
        ∃ cam, (putCameraRoute s id u).ws = [("camera-updated", cam)]
          ∧ cam ∈ (putCameraRoute s id u).state.cameras
          ∧ cam.encryptedPassword = c.encryptedPassword
          ∧ (u.username = none → cam.username = c.username)
          ∧ (putCameraRoute s id u).body = some (sanitizeCamera cam) := by
  refine ⟨?_, ?_, ?_⟩
  · intro n topic payload
    rw [wsClientsAfterConnections_eq_nil]
    rfl
  · intro s req nid un hun hne
    refine ⟨createCameraStore req nid, rfl, ?_, ?_, ?_, rfl⟩
    · simp [postCameraRoute]
    · simp [createCameraStore, hun]
    · simp [postCameraRoute, sanitizeCamera, createCameraStore, maskUsername,
        hun, hne]
  · intro s id u c hc
    have hmem : c ∈ s.cameras := List.mem_of_find?_eq_some hc
    have hid : c.id = id := by
      have := List.find?_some hc
      simpa using this
    have hcollapse :
        applyCameraUpdates c { u with password := none } = applyCameraUpdates c u :=
      rfl
    refine ⟨applyCameraUpdates c u, ?_, ?_, rfl, ?_, ?_⟩
    · unfold putCameraRoute
      rw [hc]
      cases h : optTruthy u.password <;> simp [h, hcollapse]
    · unfold putCameraRoute
      rw [hc]
      cases h : optTruthy u.password <;>
        · simp only [h, Bool.false_eq_true, if_true, if_false, hcollapse]
          exact List.mem_map.mpr ⟨c, hmem, by simp [hid]⟩
    · intro hu
      simp [applyCameraUpdates, hu]
    · unfold putCameraRoute
      rw [hc]
      cases h : optTruthy u.password <;> simp [h, hcollapse]

/-- Witness for C9 (amended): zero delivery after three connections, plus a
concrete create and a concrete update. -/
theorem ws_broadcast_arg_unmasked_but_never_delivered_witness :
    broadcastDeliver (wsClientsAfterConnections 3) "camera-added"
        ⟨"c1", "Cam 1", "rtsp://h/s", some "admin", some "aa:bb:cc",
         "offline", some 7, true⟩
      = []
    ∧ (∃ cam, (postCameraRoute ⟨[], [], [], [], [], []⟩
          ⟨"Cam 1", "rtsp://h/s", some "admin", some "pw", some 7, true⟩
          "c1").ws = [("camera-added", cam)]
        ∧ cam ∈ (postCameraRoute ⟨[], [], [], [], [], []⟩
            ⟨"Cam 1", "rtsp://h/s", some "admin", some "pw", some 7, true⟩
            "c1").state.cameras
        ∧ cam.username = some "admin"
        ∧ (postCameraRoute ⟨[], [], [], [], [], []⟩
            ⟨"Cam 1", "rtsp://h/s", some "admin", some "pw", some 7, true⟩
            "c1").body.username = some "[HIDDEN]"
        ∧ (postCameraRoute ⟨[], [], [], [], [], []⟩
            ⟨"Cam 1", "rtsp://h/s", some "admin", some "pw", some 7, true⟩
            "c1").body.encryptedPassword = none)
    ∧ ∃ cam, (putCameraRoute
          ⟨[⟨"c1", "Cam 1", "rtsp://h/s", some "admin", some "aa:bb:cc",
             "offline", some 7, true⟩], [], [], [], [], []⟩
          "c1" { name := some "Cam 2" }).ws = [("camera-updated", cam)]
        ∧ cam ∈ (putCameraRoute
            ⟨[⟨"c1", "Cam 1", "rtsp://h/s", some "admin", some "aa:bb:cc",
               "offline", some 7, true⟩], [], [], [], [], []⟩
            "c1" { name := some "Cam 2" }).state.cameras
        ∧ cam.encryptedPassword = some "aa:bb:cc"
        ∧ ((none : Option String) = none → cam.username = some "admin")
        ∧ (putCameraRoute
            ⟨[⟨"c1", "Cam 1", "rtsp://h/s", some "admin", some "aa:bb:cc",
               "offline", some 7, true⟩], [], [], [], [], []⟩
            "c1" { name := some "Cam 2" }).body = some (sanitizeCamera cam) :=
  ⟨ws_broadcast_arg_unmasked_but_never_delivered.1 3 "camera-added"
     ⟨"c1", "Cam 1", "rtsp://h/s", some "admin", some "aa:bb:cc",
      "offline", some 7, true⟩,
   ws_broadcast_arg_unmasked_but_never_delivered.2.1 ⟨[], [], [], [], [], []⟩
     ⟨"Cam 1", "rtsp://h/s", some "admin", some "pw", some 7, true⟩
     "c1" "admin" rfl (by decide),
   ws_broadcast_arg_unmasked_but_never_delivered.2.2
     ⟨[⟨"c1", "Cam 1", "rtsp://h/s", some "admin", some "aa:bb:cc",
        "offline", some 7, true⟩], [], [], [], [], []⟩
     "c1" { name := some "Cam 2" }
     ⟨"c1", "Cam 1", "rtsp://h/s", some "admin", some "aa:bb:cc",
      "offline", some 7, true⟩ (by decide)⟩

/-! ### C10 — submitted password is silently dropped -/

/-- C10.  An update that includes a (truthy) new password leaves the stored
`encryptedPassword` unchanged: the handler encrypts the password into a
local variable it never uses, strips `password` from the applied update,
and every other submitted field is applied as usual. -/
theorem updatePassword_silently_dropped
    (s : SystemState) (id : String) (u : UpdateCamera) (c : Camera) (pw : String)
    (hc : getCamera s id = some c) (hpw : u.password = some pw) (hne : pw ≠ "") :
    ∃ c1, putCameraRoute s id u =
        ⟨200,
         { s with cameras := s.cameras.map fun x => if x.id = id then c1 else x },
         optTruthy u.rtspUrl || u.enabledProtocols.isSome,
         [("camera-updated", c1)],
         some (sanitizeCamera c1)⟩
      ∧ c1.encryptedPassword = c.encryptedPassword
      ∧ c1.name = u.name.getD c.name
      ∧ c1.rtspUrl = u.rtspUrl.getD c.rtspUrl
      ∧ c1.username = (match u.username with | some v => some v | none => c.username)
      ∧ c1.retainDays = u.retainDays.getD c.retainDays
      ∧ c1.enabledProtocols = u.enabledProtocols.getD c.enabledProtocols := by
  have htruthy : optTruthy u.password = true := by
    simp [optTruthy, hpw, hne]
  have hcollapse :
      applyCameraUpdates c { u with password := none } = applyCameraUpdates c u :=
    rfl
  refine ⟨applyCameraUpdates c u, ?_, rfl, ?_, ?_, ?_, ?_, ?_⟩
  · unfold putCameraRoute
    rw [hc]
    simp [htruthy, hcollapse]
  all_goals simp [applyCameraUpdates]

/-- Witness for C10: updating the password (and the name) of a camera whose
stored ciphertext is `aa:bb:cc` leaves that ciphertext in place. -/
theorem updatePassword_silently_dropped_witness :
    ∃ c1, putCameraRoute
        ⟨[⟨"c1", "Cam 1", "rtsp://h/s", some "admin", some "aa:bb:cc",
           "offline", some 7, true⟩], [], [], [], [], []⟩
        "c1" { name := some "Cam 2", password := some "newpw" } =
        ⟨200,
         { cameras := [⟨"c1", "Cam 1", "rtsp://h/s", some "admin",
             some "aa:bb:cc", "offline", some 7, true⟩].map
               fun x => if x.id = "c1" then c1 else x,
           recordings := [], anprEvents := [], activeRecorders := [],
           liveStreams := [], monitored := [] },
         optTruthy none || (none : Option Bool).isSome,
         [("camera-updated", c1)],
         some (sanitizeCamera c1)⟩
      ∧ c1.encryptedPassword = some "aa:bb:cc"
      ∧ c1.name = (some "Cam 2").getD "Cam 1"
      ∧ c1.rtspUrl = (none : Option String).getD "rtsp://h/s"
      ∧ c1.username = (match (none : Option String) with
          | some v => some v | none => some "admin")
      ∧ c1.retainDays = (none : Option (Option ℕ)).getD (some 7)
      ∧ c1.enabledProtocols = (none : Option Bool).getD true :=
  updatePassword_silently_dropped
    ⟨[⟨"c1", "Cam 1", "rtsp://h/s", some "admin", some "aa:bb:cc",
       "offline", some 7, true⟩], [], [], [], [], []⟩
    "c1" { name := some "Cam 2", password := some "newpw" }
    ⟨"c1", "Cam 1", "rtsp://h/s", some "admin", some "aa:bb:cc",
     "offline", some 7, true⟩
    "newpw" (by decide) rfl (by decide)

/-! ### C5 — credential vault round trip and tampering -/

/-- Hex digits decode to their value. -/
theorem hexCharVal_hexDigitChar : ∀ n, n < 16 → hexCharVal (hexDigitChar n) = some n := by
  decide

/-- Hex digits are never the field separator. -/
theorem hexDigitChar_ne_colon : ∀ n, n < 16 → hexDigitChar n ≠ ':' := by
  decide

/-- A byte's hex encoding contains no separator. -/
theorem colon_not_mem_byteToHex (b : ℕ) (hb : b < 256) : ':' ∉ byteToHex b := by
  have h1 := hexDigitChar_ne_colon (b / 16) (by omega)
  have h2 := hexDigitChar_ne_colon (b % 16) (by omega)
  simp only [byteToHex, List.mem_cons, List.not_mem_nil, or_false]
  push_neg
  exact ⟨fun h => h1 h.symm, fun h => h2 h.symm⟩

/-- A byte sequence's hex encoding contains no separator. -/
theorem colon_not_mem_bytesToHex (bs : List ℕ) (h : ∀ b ∈ bs, b < 256) :
    ':' ∉ bytesToHex bs := by
  induction bs with
  | nil => simp [bytesToHex]
  | cons b rest ih =>
    have hb := h b (List.mem_cons_self b rest)
    have ih' := ih fun x hx => h x (List.mem_cons_of_mem b hx)
    simp only [bytesToHex, List.map_cons, List.flatten_cons, List.mem_append]
    push_neg
    exact ⟨colon_not_mem_byteToHex b hb, by simpa [bytesToHex] using ih'⟩

/-- Hex decoding inverts hex encoding on genuine bytes. -/
theorem hexToBytes_bytesToHex (bs : List ℕ) (h : ∀ b ∈ bs, b < 256) :
    hexToBytes (bytesToHex bs) = some bs := by
  induction bs with
  | nil => rfl
  | cons b rest ih =>
    have hb : b < 256 := h b (List.mem_cons_self b rest)
    have h1 := hexCharVal_hexDigitChar (b / 16) (by omega)
    have h2 := hexCharVal_hexDigitChar (b % 16) (by omega)
    have ih' := ih fun x hx => h x (List.mem_cons_of_mem b hx)
    have hexp : bytesToHex (b :: rest)
        = hexDigitChar (b / 16) :: hexDigitChar (b % 16) :: bytesToHex rest := by
      simp [bytesToHex, byteToHex]
    rw [hexp]
    simp only [hexToBytes, h1, h2, ih', Option.bind_eq_bind, Option.some_bind]
    have hbv : b / 16 * 16 + b % 16 = b := by omega
    rw [hbv]
    rfl

/-- The keystream bytes of an in-range plaintext stay in range. -/
theorem encBytes_lt (p : List Char) (hp : ∀ c ∈ p, c.toNat < 256) :
    ∀ b ∈ p.map fun c => coreEncByte c.toNat, b < 256 := by
  intro b hbm
  obtain ⟨c, hcm, rfl⟩ := List.mem_map.mp hbm
  have h1 : c.toNat < 2 ^ 8 := by simpa using hp c hcm
  have h2 : coreKeyByte < 2 ^ 8 := by norm_num [coreKeyByte]
  simpa [coreEncByte] using Nat.xor_lt_two_pow h1 h2

/-- Plaintext byte values of an in-range plaintext are in range. -/
theorem toNatBytes_lt (p : List Char) (hp : ∀ c ∈ p, c.toNat < 256) :
    ∀ b ∈ p.map Char.toNat, b < 256 := by
  intro b hbm
  obtain ⟨c, hcm, rfl⟩ := List.mem_map.mp hbm
  exact hp c hcm

/-- The tag field contains no separator. -/
theorem colon_not_mem_coreTagHex (p : List Char) (hp : ∀ c ∈ p, c.toNat < 256) :
    ':' ∉ coreTagHex p :=
  colon_not_mem_bytesToHex _ (toNatBytes_lt p hp)

/-- The payload field contains no separator. -/
theorem colon_not_mem_coreEncHex (p : List Char) (hp : ∀ c ∈ p, c.toNat < 256) :
    ':' ∉ coreEncHex p :=
  colon_not_mem_bytesToHex _ (encBytes_lt p hp)

set_option maxRecDepth 4000 in
/-- `Char.ofNat` followed by `Char.toNat` is the identity on byte values. -/
theorem toNat_ofNat_of_lt : ∀ n, n < 256 → (Char.ofNat n).toNat = n := by
  decide

/-- Decoding the keystream bytes of a plaintext recovers it. -/
theorem decodeEnc_eq (p : List Char) :
    ((p.map fun c => coreEncByte c.toNat).map
        fun b => Char.ofNat (coreEncByte b)) = p := by
  rw [List.map_map]
  calc (p.map fun c => Char.ofNat (coreEncByte (coreEncByte (Char.toNat c))))
      = p.map id := by
        apply List.map_congr_left
        intro c _
        have h1 : coreEncByte (coreEncByte c.toNat) = c.toNat := by
          unfold coreEncByte
          exact Nat.xor_cancel_right _ _
        simp [Function.comp, h1]
    _ = p := List.map_id p

/-- The decipher core inverts the cipher core when the tag is intact. -/
theorem coreDecHex_coreEncHex (p : List Char) (hp : ∀ c ∈ p, c.toNat < 256) :
    coreDecHex (coreEncHex p) (coreTagHex p) = some p := by
  unfold coreDecHex coreEncHex
  rw [hexToBytes_bytesToHex _ (encBytes_lt p hp)]
  simp [decodeEnc_eq p]

/-- Characters are recovered from their code points. -/
theorem map_ofNat_map_toNat (p : List Char) :
    (p.map Char.toNat).map Char.ofNat = p := by
  rw [List.map_map]
  calc p.map (Char.ofNat ∘ Char.toNat)
      = p.map id := List.map_congr_left fun c _ => Char.ofNat_toNat c
    _ = p := List.map_id p

/-- The tag is injective on byte-valued plaintexts: the spec's ideal-MAC
reading, under which distinct messages never collide. -/
theorem coreTagHex_inj (p1 p2 : List Char)
    (h1 : ∀ c ∈ p1, c.toNat < 256) (h2 : ∀ c ∈ p2, c.toNat < 256)
    (h : coreTagHex p1 = coreTagHex p2) : p1 = p2 := by
  have e1 : hexToBytes (coreTagHex p1) = some (p1.map Char.toNat) :=
    hexToBytes_bytesToHex _ (toNatBytes_lt p1 h1)
  have e2 : hexToBytes (coreTagHex p2) = some (p2.map Char.toNat) :=
    hexToBytes_bytesToHex _ (toNatBytes_lt p2 h2)
  rw [h, e2] at e1
  have hmap : p2.map Char.toNat = p1.map Char.toNat := by
    simpa using e1
  calc p1 = (p1.map Char.toNat).map Char.ofNat := (map_ofNat_map_toNat p1).symm
    _ = (p2.map Char.toNat).map Char.ofNat := by rw [hmap]
    _ = p2 := map_ofNat_map_toNat p2

/-- A successful hex digit decode comes from the matching digit character. -/
theorem hexCharVal_some (c : Char) (v : ℕ) (h : hexCharVal c = some v) :
    v < 16 ∧ hexDigitChar v = c := by
  unfold hexCharVal at h
  by_cases h1 : 48 ≤ c.toNat ∧ c.toNat ≤ 57
  · rw [if_pos h1] at h
    have hv : c.toNat - 48 = v := by simpa using h
    refine ⟨by omega, ?_⟩
    have hlt : v < 10 := by omega
    unfold hexDigitChar
    rw [if_pos hlt, show 48 + v = c.toNat by omega, Char.ofNat_toNat]
  · rw [if_neg h1] at h
    by_cases h2 : 97 ≤ c.toNat ∧ c.toNat ≤ 102
    · rw [if_pos h2] at h
      have hv : c.toNat - 87 = v := by simpa using h
      refine ⟨by omega, ?_⟩
      have hlt : ¬ v < 10 := by omega
      unfold hexDigitChar
      rw [if_neg hlt, show 87 + v = c.toNat by omega, Char.ofNat_toNat]
    · rw [if_neg h2] at h
      exact absurd h (by simp)

/-- Decomposition of a successful two-character decode step. -/
theorem hexToBytes_cons_some (c1 c2 : Char) (rest : List Char) (bs : List ℕ)
    (h : hexToBytes (c1 :: c2 :: rest) = some bs) :
    ∃ hi lo bs2, hexCharVal c1 = some hi ∧ hexCharVal c2 = some lo
      ∧ hexToBytes rest = some bs2 ∧ bs = (hi * 16 + lo) :: bs2 := by
  simp only [hexToBytes, Option.bind_eq_bind] at h
  rcases Option.bind_eq_some.mp h with ⟨hi, hh1, h⟩
  rcases Option.bind_eq_some.mp h with ⟨lo, hh2, h⟩
  rcases Option.bind_eq_some.mp h with ⟨bs2, hh3, h⟩
  exact ⟨hi, lo, bs2, hh1, hh2, hh3, by simpa using h.symm⟩

/-- A successful decode pins the input to the canonical hex image of its
bytes, all of which are below 256. -/
theorem hexToBytes_some_spec (bs : List ℕ) :
    ∀ l, hexToBytes l = some bs → l = bytesToHex bs ∧ ∀ b ∈ bs, b < 256 := by
  induction bs with
  | nil =>
    intro l h
    refine ⟨?_, by simp⟩
    rcases l with _ | ⟨c1, _ | ⟨c2, rest⟩⟩
    · rfl
    · exact absurd h (by simp [hexToBytes])
    · obtain ⟨hi, lo, bs2, _, _, _, hbs⟩ := hexToBytes_cons_some c1 c2 rest [] h
      exact absurd hbs (by simp)
  | cons b bs2 ih =>
    intro l h
    rcases l with _ | ⟨c1, _ | ⟨c2, rest⟩⟩
    · exact absurd h (by simp [hexToBytes])
    · exact absurd h (by simp [hexToBytes])
    · obtain ⟨hi, lo, bs3, h1, h2, h3, hbs⟩ := hexToBytes_cons_some c1 c2 rest _ h
      obtain ⟨hb, hbs3⟩ : b = hi * 16 + lo ∧ bs2 = bs3 := by
        simpa using hbs
      obtain ⟨hrest, hlt⟩ := ih rest (hbs3 ▸ h3)
      obtain ⟨hhi, hc1⟩ := hexCharVal_some c1 hi h1
      obtain ⟨hlo, hc2⟩ := hexCharVal_some c2 lo h2
      constructor
      · have hexp : bytesToHex (b :: bs2)
            = hexDigitChar (b / 16) :: hexDigitChar (b % 16) :: bytesToHex bs2 := by
          simp [bytesToHex, byteToHex]
        rw [hexp, show b / 16 = hi by omega, show b % 16 = lo by omega,
          hc1, hc2, ← hrest]
      · intro x hx
        rcases List.mem_cons.mp hx with rfl | hx2
        · omega
        · exact hlt x hx2

/-- Hex length: a byte sequence encodes to twice as many characters. -/
theorem bytesToHex_length (bs : List ℕ) : (bytesToHex bs).length = 2 * bs.length := by
  induction bs with
  | nil => rfl
  | cons b rest ih =>
    have hexp : bytesToHex (b :: rest) = byteToHex b ++ bytesToHex rest := by
      simp [bytesToHex]
    rw [hexp, List.length_append, ih]
    simp [byteToHex]
    omega

/-- A successful decode reads exactly two characters per byte. -/
theorem hexToBytes_some_length (l : List Char) (bs : List ℕ)
    (h : hexToBytes l = some bs) : l.length = 2 * bs.length := by
  obtain ⟨hl, _⟩ := hexToBytes_some_spec bs l h
  rw [hl, bytesToHex_length]

/-- The tag field is twice the plaintext length. -/
theorem coreTagHex_length (p : List Char) :
    (coreTagHex p).length = 2 * p.length := by
  unfold coreTagHex
  rw [bytesToHex_length, List.length_map]

/-- The payload field is twice the plaintext length. -/
theorem coreEncHex_length (p : List Char) :
    (coreEncHex p).length = 2 * p.length := by
  unfold coreEncHex
  rw [bytesToHex_length, List.length_map]

/-- `splitOnColon` never yields the empty list. -/
theorem splitOnColon_ne_nil (l : List Char) : splitOnColon l ≠ [] := by
  cases l with
  | nil => simp [splitOnColon]
  | cons c rest =>
    simp only [splitOnColon]
    cases h : splitOnColon rest with
    | nil => simp
    | cons s ss => by_cases hc : c = ':' <;> simp [hc]

/-- A separator-free field is returned whole. -/
theorem splitOnColon_no_colon (a : List Char) (ha : ':' ∉ a) :
    splitOnColon a = [a] := by
  induction a with
  | nil => rfl
  | cons c rest ih =>
    have hc : ¬ c = ':' := fun h => ha (List.mem_cons.mpr (Or.inl h.symm))
    have ih' := ih fun hm => ha (List.mem_cons_of_mem c hm)
    simp [splitOnColon, ih', hc]

/-- Splitting peels off one separator-free field at a time. -/
theorem splitOnColon_append (a l : List Char) (ha : ':' ∉ a) :
    splitOnColon (a ++ ':' :: l) = a :: splitOnColon l := by
  induction a with
  | nil =>
    show splitOnColon (':' :: l) = [] :: splitOnColon l
    simp only [splitOnColon]
    cases h : splitOnColon l with
    | nil => exact absurd h (splitOnColon_ne_nil l)
    | cons s ss => simp
  | cons c a2 ih =>
    have hc : ¬ c = ':' := fun h => ha (List.mem_cons.mpr (Or.inl h.symm))
    have ih' := ih fun hm => ha (List.mem_cons_of_mem c hm)
    show splitOnColon (c :: (a2 ++ ':' :: l)) = (c :: a2) :: splitOnColon l
    simp [splitOnColon, ih', hc]

/-- Changing one character changes the list. -/
theorem flip_ne (l1 l2 : List Char) (c2 c0 : Char) (h : c2 ≠ c0) :
    l1 ++ c2 :: l2 ≠ l1 ++ c0 :: l2 := by
  intro he
  have h2 := List.append_cancel_left he
  simp only [List.cons.injEq] at h2
  exact h h2.1

/-- A payload hex field that is not the true one defeats the tag check:
either it fails to decode, or it decodes to a different plaintext whose tag
differs (by tag injectivity). -/
theorem coreDecHex_wrong_payload (p E2 : List Char)
    (hp : ∀ c ∈ p, c.toNat < 256) (hne : E2 ≠ coreEncHex p) :
    coreDecHex E2 (coreTagHex p) = none := by
  unfold coreDecHex
  cases hdec : hexToBytes E2 with
  | none => rfl
  | some bs =>
    obtain ⟨hE2, hbs⟩ := hexToBytes_some_spec bs E2 hdec
    have hp2 : ∀ c ∈ bs.map fun b => Char.ofNat (coreEncByte b), c.toNat < 256 := by
      intro c hcm
      obtain ⟨b, hbm, rfl⟩ := List.mem_map.mp hcm
      have hlt : coreEncByte b < 256 := by
        have hb1 : b < 2 ^ 8 := by simpa using hbs b hbm
        have hb2 : coreKeyByte < 2 ^ 8 := by norm_num [coreKeyByte]
        simpa [coreEncByte] using Nat.xor_lt_two_pow hb1 hb2
      rw [toNat_ofNat_of_lt _ hlt]
      exact hlt
    have hnot : ¬ coreTagHex (bs.map fun b => Char.ofNat (coreEncByte b))
        = coreTagHex p := by
      intro htag
      have hpp : (bs.map fun b => Char.ofNat (coreEncByte b)) = p :=
        coreTagHex_inj _ p hp2 hp htag
      have hbs2 : bs = p.map fun c => coreEncByte c.toNat := by
        calc bs = ((bs.map fun b => Char.ofNat (coreEncByte b)).map
              fun ch => coreEncByte ch.toNat) := by
              rw [List.map_map]
              symm
              calc List.map ((fun ch => coreEncByte ch.toNat)
                    ∘ fun b => Char.ofNat (coreEncByte b)) bs
                  = bs.map id := by
                    apply List.map_congr_left
                    intro b hbm
                    have hlt : coreEncByte b < 256 := by
                      have hb1 : b < 2 ^ 8 := by simpa using hbs b hbm
                      have hb2 : coreKeyByte < 2 ^ 8 := by norm_num [coreKeyByte]
                      simpa [coreEncByte] using Nat.xor_lt_two_pow hb1 hb2
                    show coreEncByte (Char.ofNat (coreEncByte b)).toNat = b
                    rw [toNat_ofNat_of_lt _ hlt]
                    unfold coreEncByte
                    exact Nat.xor_cancel_right _ _
                _ = bs := List.map_id bs
          _ = p.map fun c => coreEncByte c.toNat := by rw [hpp]
      exact hne (by rw [hE2, hbs2]; rfl)
    simp only [hnot, if_false]

/-- A tag field that is not the true one defeats the check when the payload
is intact. -/
theorem coreDecHex_wrong_tag (p T2 : List Char)
    (hp : ∀ c ∈ p, c.toNat < 256) (hne : T2 ≠ coreTagHex p) :
    coreDecHex (coreEncHex p) T2 = none := by
  unfold coreDecHex coreEncHex
  rw [hexToBytes_bytesToHex _ (encBytes_lt p hp)]
  simp only [decodeEnc_eq p]
  rw [if_neg fun h => hne h.symm]

/-- A candidate tag field of the wrong length always defeats the check. -/
theorem coreDecHex_ne_length (X Y : List Char) (h : X.length ≠ Y.length) :
    coreDecHex X Y = none := by
  unfold coreDecHex
  cases hdec : hexToBytes X with
  | none => rfl
  | some bs =>
    have hX : X.length = 2 * bs.length := hexToBytes_some_length X bs hdec
    have hnot : ¬ coreTagHex (bs.map fun b => Char.ofNat (coreEncByte b)) = Y := by
      intro htag
      apply h
      rw [hX, ← htag, coreTagHex_length, List.length_map]
    simp only [hnot, if_false]

/-- Counterexample for C5.  Take the ciphertext of the plaintext `pw` (with
the 16 random nonce bytes all zero) and flip its first byte from `0` to
`1` — a one-byte change inside the embedded nonce field.  `open` still
succeeds and returns `pw`: the claim that flipping *any* byte of a valid
ciphertext makes `open` fail is false, because `decryptCredentials` parses
the nonce field and then never uses it. -/
theorem flip_nonce_byte_still_decrypts_counterexample :
    ('1' :: (encryptCredentials (List.replicate 16 0) ['p', 'w']).tail)
        ≠ encryptCredentials (List.replicate 16 0) ['p', 'w']
    ∧ (encryptCredentials (List.replicate 16 0) ['p', 'w']).head? = some '0'
    ∧ ('1' :: (encryptCredentials (List.replicate 16 0) ['p', 'w']).tail).length
        = (encryptCredentials (List.replicate 16 0) ['p', 'w']).length
    ∧ decryptCredentials
        ('1' :: (encryptCredentials (List.replicate 16 0) ['p', 'w']).tail)
        = some ['p', 'w'] := by
  decide

/-- C5, amended.  `open(seal(p)) = p` for every byte-valued plaintext and
any nonce draw; and the tamper half of the claim holds for every byte
*outside* the embedded nonce field but fails inside it: flipping the first
separator, any tag byte, the second separator, or any payload byte (each
to any other character) makes `open` fail, while replacing the nonce field
by arbitrary separator-free bytes — in particular flipping any nonce byte
to anything but `:` — leaves `open` succeeding with `p`, because `open`
parses the nonce and then ignores it.  The ciphertext decomposes as
`nonceHex ++ ':' :: (tagHex ++ ':' :: payloadHex)`, which is definitionally
`encryptCredentials iv p`; the six conjuncts cover, in order: the round
trip, the nonce field, the first separator, the tag field, the second
separator, and the payload field. -/
theorem decryptCredentials_tamper_analysis
    (iv : List ℕ) (junk p : List Char)
    (hp : ∀ c ∈ p, c.toNat < 256) (hiv : ∀ b ∈ iv, b < 256) (hj : ':' ∉ junk) :
    decryptCredentials (encryptCredentials iv p) = some p
    ∧ decryptCredentials (junk ++ ':' :: (coreTagHex p ++ ':' :: coreEncHex p))
        = some p
    ∧ (∀ c2 : Char, c2 ≠ ':' →
        decryptCredentials
          (bytesToHex iv ++ c2 :: (coreTagHex p ++ ':' :: coreEncHex p)) = none)
    ∧ (∀ (T1 T2 : List Char) (c0 c2 : Char),
        coreTagHex p = T1 ++ c0 :: T2 → c2 ≠ c0 →
        decryptCredentials
          (bytesToHex iv ++ ':' :: ((T1 ++ c2 :: T2) ++ ':' :: coreEncHex p))
          = none)
    ∧ (∀ c2 : Char, c2 ≠ ':' →
        decryptCredentials
          (bytesToHex iv ++ ':' :: (coreTagHex p ++ c2 :: coreEncHex p)) = none)
    ∧ (∀ (E1 E2 : List Char) (c0 c2 : Char),
        coreEncHex p = E1 ++ c0 :: E2 → c2 ≠ c0 →
        decryptCredentials
          (bytesToHex iv ++ ':' :: (coreTagHex p ++ ':' :: (E1 ++ c2 :: E2)))
          = none) := by
  have hH : ':' ∉ bytesToHex iv := colon_not_mem_bytesToHex iv hiv
  have hT : ':' ∉ coreTagHex p := colon_not_mem_coreTagHex p hp
  have hE : ':' ∉ coreEncHex p := colon_not_mem_coreEncHex p hp
  have key : ∀ junk2 : List Char, ':' ∉ junk2 →
      decryptCredentials (junk2 ++ ':' :: (coreTagHex p ++ ':' :: coreEncHex p))
        = some p := by
    intro junk2 hj2
    unfold decryptCredentials
    rw [splitOnColon_append _ _ hj2, splitOnColon_append _ _ hT,
      splitOnColon_no_colon _ hE]
    show coreDecHex (coreEncHex p) (coreTagHex p) = some p
    exact coreDecHex_coreEncHex p hp
  refine ⟨?_, key junk hj, ?_, ?_, ?_, ?_⟩
  · show decryptCredentials
        (bytesToHex iv ++ ':' :: (coreTagHex p ++ ':' :: coreEncHex p)) = some p
    exact key _ hH
  · intro c2 hc2
    have hy : bytesToHex iv ++ c2 :: (coreTagHex p ++ ':' :: coreEncHex p)
        = (bytesToHex iv ++ c2 :: coreTagHex p) ++ ':' :: coreEncHex p := by
      simp
    have hfree : ':' ∉ bytesToHex iv ++ c2 :: coreTagHex p := by
      simp only [List.mem_append, List.mem_cons]
      push_neg
      exact ⟨hH, fun h => hc2 h.symm, hT⟩
    unfold decryptCredentials
    rw [hy, splitOnColon_append _ _ hfree, splitOnColon_no_colon _ hE]
  · intro T1 T2 c0 c2 hT12 hc2
    have hTfree : ':' ∉ T1 ∧ ¬ (':' = c0) ∧ ':' ∉ T2 := by
      have h := hT
      rw [hT12] at h
      simpa [List.mem_append, List.mem_cons, not_or] using h
    by_cases hcol : c2 = ':'
    · subst hcol
      have hy : (T1 ++ ':' :: T2) ++ ':' :: coreEncHex p
          = T1 ++ ':' :: (T2 ++ ':' :: coreEncHex p) := by
        simp
      unfold decryptCredentials
      rw [hy, splitOnColon_append _ _ hH, splitOnColon_append _ _ hTfree.1,
        splitOnColon_append _ _ hTfree.2.2, splitOnColon_no_colon _ hE]
      show coreDecHex T2 T1 = none
      apply coreDecHex_ne_length
      have hlen := coreTagHex_length p
      rw [hT12] at hlen
      simp only [List.length_append, List.length_cons] at hlen
      omega
    · have hfree2 : ':' ∉ T1 ++ c2 :: T2 := by
        simp only [List.mem_append, List.mem_cons]
        push_neg
        exact ⟨hTfree.1, fun h => hcol h.symm, hTfree.2.2⟩
      unfold decryptCredentials
      rw [splitOnColon_append _ _ hH, splitOnColon_append _ _ hfree2,
        splitOnColon_no_colon _ hE]
      show coreDecHex (coreEncHex p) (T1 ++ c2 :: T2) = none
      exact coreDecHex_wrong_tag p _ hp
        (by rw [hT12]; exact flip_ne T1 T2 c2 c0 hc2)
  · intro c2 hc2
    have hfree : ':' ∉ coreTagHex p ++ c2 :: coreEncHex p := by
      simp only [List.mem_append, List.mem_cons]
      push_neg
      exact ⟨hT, fun h => hc2 h.symm, hE⟩
    unfold decryptCredentials
    rw [splitOnColon_append _ _ hH, splitOnColon_no_colon _ hfree]
  · intro E1 E2 c0 c2 hE12 hc2
    have hEfree : ':' ∉ E1 ∧ ¬ (':' = c0) ∧ ':' ∉ E2 := by
      have h := hE
      rw [hE12] at h
      simpa [List.mem_append, List.mem_cons, not_or] using h
    by_cases hcol : c2 = ':'
    · subst hcol
      unfold decryptCredentials
      rw [splitOnColon_append _ _ hH, splitOnColon_append _ _ hT,
        splitOnColon_append _ _ hEfree.1, splitOnColon_no_colon _ hEfree.2.2]
      show coreDecHex E1 (coreTagHex p) = none
      apply coreDecHex_ne_length
      have hlen := coreEncHex_length p
      rw [hE12] at hlen
      simp only [List.length_append, List.length_cons] at hlen
      have htlen := coreTagHex_length p
      omega
    · have hfree2 : ':' ∉ E1 ++ c2 :: E2 := by
        simp only [List.mem_append, List.mem_cons]
        push_neg
        exact ⟨hEfree.1, fun h => hcol h.symm, hEfree.2.2⟩
      unfold decryptCredentials
      rw [splitOnColon_append _ _ hH, splitOnColon_append _ _ hT,
        splitOnColon_no_colon _ hfree2]
      show coreDecHex (E1 ++ c2 :: E2) (coreTagHex p) = none
      exact coreDecHex_wrong_payload p _ hp
        (by rw [hE12]; exact flip_ne E1 E2 c2 c0 hc2)

/-- Witness for C5 (amended): plaintext `pw`, zero nonce; the nonce field
flipped to `10…0`; and one concrete flip in each protected region — the
first separator to `0`, the first tag byte `7` to `8`, the second
separator to `0`, and the first payload byte `2` to `3`. -/
theorem decryptCredentials_tamper_analysis_witness :
    decryptCredentials (encryptCredentials (List.replicate 16 0) ['p', 'w'])
        = some ['p', 'w']
    ∧ decryptCredentials
        (('1' :: List.replicate 31 '0')
          ++ ':' :: (coreTagHex ['p', 'w'] ++ ':' :: coreEncHex ['p', 'w']))
        = some ['p', 'w']
    ∧ decryptCredentials
        (bytesToHex (List.replicate 16 0)
          ++ '0' :: (coreTagHex ['p', 'w'] ++ ':' :: coreEncHex ['p', 'w']))
        = none
    ∧ decryptCredentials
        (bytesToHex (List.replicate 16 0)
          ++ ':' :: (([] ++ '8' :: ['0', '7', '7']) ++ ':' :: coreEncHex ['p', 'w']))
        = none
    ∧ decryptCredentials
        (bytesToHex (List.replicate 16 0)
          ++ ':' :: (coreTagHex ['p', 'w'] ++ '0' :: coreEncHex ['p', 'w']))
        = none
    ∧ decryptCredentials
        (bytesToHex (List.replicate 16 0)
          ++ ':' :: (coreTagHex ['p', 'w'] ++ ':' :: ([] ++ '3' :: ['a', '2', 'd'])))
        = none :=
  let h := decryptCredentials_tamper_analysis (List.replicate 16 0)
    ('1' :: List.replicate 31 '0') ['p', 'w']
    (by decide) (by decide) (by decide)
  ⟨h.1, h.2.1,
   h.2.2.1 '0' (by decide),
   h.2.2.2.1 [] ['0', '7', '7'] '7' '8' (by decide) (by decide),
   h.2.2.2.2.1 '0' (by decide),
   h.2.2.2.2.2 [] ['a', '2', 'd'] '2' '3' (by decide) (by decide)⟩
